import Mathlib

/-!
Verification development for the PieZero-HA-Display core
(`src/display.py`): the refresh scheduler, the offline action queue and
the persistent data cache, shallowly embedded in Lean 4.

Machine integers do not occur in the modelled code; timestamps
(`time.time()` values) are modelled as integers (`Int`), which is
faithful for the comparisons and subtractions the code performs.
-/

/-! ## Offline action queue (`_queue_pending_action`, `_process_pending_actions`) -/

/-- A queued action, mirroring the dicts built by `_queue_pending_action`:
`{"type": ..., "data": {"entity_id": ..., "task_uid": ..., "task_summary": ...},
"timestamp": ...}`.  The `task_summary` and `timestamp` fields are used only
for logging/bookkeeping and never influence control flow, so they are not
modelled.  `entityId`/`taskUid` model `data.get("entity_id")` /
`data.get("task_uid")`: `none` when the key is absent. -/
structure PendingAction where
  type : String
  entityId : Option String
  taskUid : Option String
deriving DecidableEq

/-- Python truthiness of an optional string: `None` and `""` are falsy. -/
def pyTruthy : Option String → Bool
  | none => false
  | some s => !s.isEmpty

/-- The guard in `_process_pending_actions` under which
`ha.complete_todo_item` is actually invoked for an action:
`action_type == "complete_task"` and `entity_id and task_uid` truthy. -/
def wellFormedAction (a : PendingAction) : Bool :=
  a.type == "complete_task" && pyTruthy a.entityId && pyTruthy a.taskUid

/-- The outcome environment for one drain pass: the boolean result of
`self.ha.complete_todo_item(entity_id, task_uid)` for each id pair. -/
def Oracle : Type := String → String → Bool

/-- Whether one action is replayed successfully in a pass with oracle `f`:
the code sets `success = False` and only flips it to the
`complete_todo_item` result inside the well-formedness guard. -/
def replaySuccess (f : Oracle) (a : PendingAction) : Bool :=
  wellFormedAction a && f (a.entityId.getD "") (a.taskUid.getD "")

/-- The loop body of `_process_pending_actions` (`for i, action in
enumerate(self.pending_actions)`), scanning the queue with a running index.
Returns the list of actions on which `complete_todo_item` was invoked
(in loop order) and `actions_to_remove`, the indices whose replay
succeeded (in increasing order, as the loop appends them). -/
def drainScan (f : Oracle) : Nat → List PendingAction → List PendingAction × List Nat
  | _, [] => ([], [])
  | i, a :: rest =>
    let r := drainScan f (i + 1) rest
    if wellFormedAction a then
      if f (a.entityId.getD "") (a.taskUid.getD "") then
        (a :: r.1, i :: r.2)
      else
        (a :: r.1, r.2)
    else
      (r.1, r.2)

/-- Stable insertion into a sorted list, the building block of a stable
sort in the sense of Python `list.sort` / `sorted`. -/
def insertBy (le : α → α → Bool) (x : α) : List α → List α
  | [] => [x]
  | b :: t => if le x b then x :: b :: t else b :: insertBy le x t

/-- Stable insertion sort, modelling Python's (stable) `list.sort` /
`sorted` with comparison `le`. -/
def sortBy (le : α → α → Bool) : List α → List α
  | [] => []
  | a :: t => insertBy le a (sortBy le t)

/-- Model of `sorted(actions_to_remove, reverse=True)`: a stable sort in
descending order. -/
def sortDescNat (l : List Nat) : List Nat :=
  sortBy (fun a b => decide (b ≤ a)) l

/-- `_process_pending_actions`, with its persistence behaviour made
observable.  Returns the queue after the pass together with the list of
`self.cache.set("pending_actions", ...)` snapshots issued during the pass
(in order).  The code returns early when the queue is empty (no persist);
otherwise it scans the queue, removes the successful indices in reverse
sorted order via `pop`, and persists the final queue exactly once. -/
def processPendingActions (f : Oracle) (q : List PendingAction) :
    List PendingAction × List (List PendingAction) :=
  if q.isEmpty then (q, [])
  else
    let toRemove := sortDescNat (drainScan f 0 q).2
    let q' := toRemove.foldl (fun acc i => acc.eraseIdx i) q
    (q', [q'])

/-- The queue left after one drain pass. -/
def drainResult (f : Oracle) (q : List PendingAction) : List PendingAction :=
  (processPendingActions f q).1

/-- The persistence snapshots issued during one drain pass. -/
def drainPersists (f : Oracle) (q : List PendingAction) : List (List PendingAction) :=
  (processPendingActions f q).2

/-- The actions on which a replay is attempted (i.e. for which
`complete_todo_item` is invoked) during one drain pass, in loop order. -/
def drainAttempts (f : Oracle) (q : List PendingAction) : List PendingAction :=
  (drainScan f 0 q).1

/-! ### Characterisation lemmas for the drain pass -/

theorem drainScan_fst (f : Oracle) :
    ∀ (q : List PendingAction) (i : Nat),
      (drainScan f i q).1 = q.filter wellFormedAction := by
  intro q
  induction q with
  | nil => intro i; rfl
  | cons a rest ih =>
    intro i
    by_cases hw : wellFormedAction a
    · by_cases hf : f (a.entityId.getD "") (a.taskUid.getD "")
      · simp [drainScan, hw, hf, List.filter, ih]
      · simp [drainScan, hw, hf, List.filter, ih]
    · simp [drainScan, hw, List.filter, ih]

theorem drainScan_snd_succ (f : Oracle) :
    ∀ (q : List PendingAction) (i : Nat),
      (drainScan f (i + 1) q).2 = ((drainScan f i q).2).map (· + 1) := by
  intro q
  induction q with
  | nil => intro i; rfl
  | cons a rest ih =>
    intro i
    by_cases hw : wellFormedAction a
    · by_cases hf : f (a.entityId.getD "") (a.taskUid.getD "")
      · simp [drainScan, hw, hf, ih (i + 1)]
      · simp [drainScan, hw, hf, ih (i + 1)]
    · simp [drainScan, hw, ih (i + 1)]

theorem drainScan_snd_lb (f : Oracle) :
    ∀ (q : List PendingAction) (i j : Nat),
      j ∈ (drainScan f i q).2 → i ≤ j := by
  intro q
  induction q with
  | nil => intro i j h; simp [drainScan] at h
  | cons a rest ih =>
    intro i j h
    by_cases hw : wellFormedAction a
    · by_cases hf : f (a.entityId.getD "") (a.taskUid.getD "")
      · simp [drainScan, hw, hf] at h
        rcases h with h | h
        · omega
        · have := ih (i + 1) j h; omega
      · simp [drainScan, hw, hf] at h
        have := ih (i + 1) j h; omega
    · simp [drainScan, hw] at h
      have := ih (i + 1) j h; omega

theorem drainScan_snd_sorted (f : Oracle) :
    ∀ (q : List PendingAction) (i : Nat),
      List.Pairwise (· < ·) (drainScan f i q).2 := by
  intro q
  induction q with
  | nil => intro i; simp [drainScan]
  | cons a rest ih =>
    intro i
    by_cases hw : wellFormedAction a
    · by_cases hf : f (a.entityId.getD "") (a.taskUid.getD "")
      · simp [drainScan, hw, hf]
        refine ⟨fun j hj => ?_, ih (i + 1)⟩
        have := drainScan_snd_lb f rest (i + 1) j hj
        omega
      · simpa [drainScan, hw, hf] using ih (i + 1)
    · simpa [drainScan, hw] using ih (i + 1)

/-- Inserting an element that compares below every element of the list
(with a descending comparison) sends it to the end. -/
theorem insertBy_of_all_false {le : α → α → Bool} {x : α} :
    ∀ {m : List α}, (∀ b ∈ m, le x b = false) → insertBy le x m = m ++ [x] := by
  intro m
  induction m with
  | nil => intro _; rfl
  | cons b t ih =>
    intro h
    have hb : le x b = false := h b (by simp)
    simp [insertBy, hb, ih fun c hc => h c (by simp [hc])]

/-- On a strictly increasing list of naturals, the descending stable sort
is reversal. -/
theorem sortDescNat_of_sorted :
    ∀ {l : List Nat}, List.Pairwise (· < ·) l → sortDescNat l = l.reverse := by
  intro l
  induction l with
  | nil => intro _; rfl
  | cons a t ih =>
    intro h
    rcases List.pairwise_cons.mp h with ⟨ha, ht⟩
    have hins : insertBy (fun a b => decide (b ≤ a)) a (sortDescNat t) = sortDescNat t ++ [a] := by
      apply insertBy_of_all_false
      intro b hb
      have hbmem : b ∈ t := by
        rw [ih ht] at hb
        exact List.mem_reverse.mp hb
      have := ha b hbmem
      simp
      omega
    have hstep : sortDescNat (a :: t) = insertBy (fun a b => decide (b ≤ a)) a (sortDescNat t) := rfl
    rw [hstep, hins, ih ht, List.reverse_cons]

theorem foldl_eraseIdx_map_succ :
    ∀ (is : List Nat) (q : List PendingAction) (a : PendingAction),
      (is.map (· + 1)).foldl (fun acc i => acc.eraseIdx i) (a :: q) =
        a :: is.foldl (fun acc i => acc.eraseIdx i) q := by
  intro is
  induction is with
  | nil => intro q a; rfl
  | cons i rest ih =>
    intro q a
    simp only [List.map_cons, List.foldl_cons]
    rw [show (a :: q).eraseIdx (i + 1) = a :: q.eraseIdx i from rfl]
    exact ih (q.eraseIdx i) a

/-- Removing the successful indices in descending order is the same as
keeping exactly the actions whose replay failed, in their original
relative order. -/
theorem foldl_eraseIdx_drainScan (f : Oracle) :
    ∀ (q : List PendingAction),
      ((drainScan f 0 q).2.reverse).foldl (fun acc i => acc.eraseIdx i) q =
        q.filter (fun a => !replaySuccess f a) := by
  intro q
  induction q with
  | nil => rfl
  | cons a rest ih =>
    by_cases hw : wellFormedAction a
    · by_cases hf : f (a.entityId.getD "") (a.taskUid.getD "")
      · have hs : replaySuccess f a = true := by simp [replaySuccess, hw, hf]
        have hscan : (drainScan f 0 (a :: rest)).2 =
            0 :: ((drainScan f 0 rest).2.map (· + 1)) := by
          simp [drainScan, hw, hf, drainScan_snd_succ f rest 0]
        rw [hscan, List.reverse_cons, ← List.map_reverse, List.foldl_append,
          foldl_eraseIdx_map_succ, ih]
        simp [List.filter_cons, hs]
      · have hs : replaySuccess f a = false := by simp [replaySuccess, hw, hf]
        have hscan : (drainScan f 0 (a :: rest)).2 =
            (drainScan f 0 rest).2.map (· + 1) := by
          simp [drainScan, hw, hf, drainScan_snd_succ f rest 0]
        rw [hscan, ← List.map_reverse, foldl_eraseIdx_map_succ, ih]
        simp [List.filter_cons, hs]
    · have hs : replaySuccess f a = false := by simp [replaySuccess, hw]
      have hscan : (drainScan f 0 (a :: rest)).2 =
          (drainScan f 0 rest).2.map (· + 1) := by
        simp [drainScan, hw, drainScan_snd_succ f rest 0]
      rw [hscan, ← List.map_reverse, foldl_eraseIdx_map_succ, ih]
      simp [List.filter_cons, hs]

/-- Full characterisation of one drain pass: the resulting queue is the
subsequence of actions whose replay failed (in original order), and the
queue is persisted exactly once — with the final value — unless it was
empty to begin with. -/
theorem processPendingActions_eq (f : Oracle) (q : List PendingAction) :
    processPendingActions f q =
      (q.filter (fun a => !replaySuccess f a),
        if q.isEmpty then [] else [q.filter (fun a => !replaySuccess f a)]) := by
  by_cases hq : q.isEmpty
  · cases q with
    | nil => rfl
    | cons a t => simp at hq
  · have key : sortDescNat (drainScan f 0 q).2 = (drainScan f 0 q).2.reverse :=
      sortDescNat_of_sorted (drainScan_snd_sorted f q 0)
    simp only [processPendingActions, if_neg hq, key, foldl_eraseIdx_drainScan]

/-! ## Data domains and per-domain fetch processing (`update_data`) -/

/-- A task item; its internal structure is irrelevant to the scheduler, so
it is modelled as an opaque payload. -/
abbrev TaskItem := String

/-- A calendar event as fetched from `get_calendar_events`: only its
`start` string drives the scheduler logic; `tag` stands for the rest of
the event payload (so that distinct events with equal starts can be told
apart when reasoning about stable ordering). -/
structure Event where
  start : String
  tag : Nat
deriving DecidableEq

/-- Code-point comparison of characters; Python compares strings by code
points, and `Char.val` is exactly the code point. -/
def charLt (a b : Char) : Bool := decide (a.val.toNat < b.val.toNat)

/-- Lexicographic strict comparison of character lists, the semantics of
Python string `<`. -/
def charsLt : List Char → List Char → Bool
  | [], [] => false
  | [], _ :: _ => true
  | _ :: _, [] => false
  | a :: as, b :: bs =>
    if charLt a b then true
    else if charLt b a then false
    else charsLt as bs

/-- Python `a < b` on strings. -/
def strLt (a b : String) : Bool := charsLt a.data b.data

/-- Python `a <= b` on strings: the negation of `b < a` under the total
lexicographic order. -/
def strLe (a b : String) : Bool := !(strLt b a)

/-- The sort key comparison of `all_events.sort(key=lambda x: x.get("start", ""))`:
lexicographic comparison of the start strings. -/
def eventLe (a b : Event) : Bool := strLe a.start b.start

/-- `all_events.sort(key=...)`: Python `list.sort` is a stable sort. -/
def sortEvents (evs : List Event) : List Event := sortBy eventLe evs

/-- `event_date = start[:10] if start else ""` (for an empty start,
`take 10` also yields the empty string). -/
def eventDate (e : Event) : String := e.start.take 10

/-- The guard `event_date == today_str` of the classification loop. -/
def isToday (todayStr : String) (e : Event) : Bool :=
  eventDate e == todayStr

/-- The guard `event_date > today_str` of the classification loop
(lexicographic string comparison, as in Python). -/
def isUpcoming (todayStr : String) (e : Event) : Bool :=
  strLt todayStr (eventDate e)

/-- The classification loop over the sorted events: an event goes to the
today bucket when `event_date == today_str`, to the upcoming bucket when
`event_date > today_str`, and is dropped otherwise. -/
def splitEvents (todayStr : String) : List Event → List Event × List Event
  | [] => ([], [])
  | e :: rest =>
    let r := splitEvents todayStr rest
    if isToday todayStr e then (e :: r.1, r.2)
    else if isUpcoming todayStr e then (r.1, e :: r.2)
    else r

/-- The calendar refresh result: sort the combined event list by start,
split around `today_str`, and keep only the first 7 upcoming events
(`upcoming_events[:7]`). -/
def calendarBuckets (evs : List Event) (todayStr : String) : List Event × List Event :=
  let p := splitEvents todayStr (sortEvents evs)
  (p.1, p.2.take 7)

/-- The task-refresh commit policy (`if new_items or not self.task_items`):
overwrite with the fetch result unless it is empty while the previous
list is non-empty. -/
def mergeTasks (newItems old : List TaskItem) : List TaskItem :=
  if !newItems.isEmpty || old.isEmpty then newItems else old

/-! ## The tick state machine (`update_data`) -/

/-- The six data domains driven by `update_data`. -/
inductive Domain
  | weather
  | forecast
  | tasks
  | calendar
  | mailbox
  | sun
deriving DecidableEq

/-- Static configuration read in `__init__`: which entities are
configured (Python truthiness of the config values) and the refresh /
check intervals.  The sun interval is hard-coded to 300 in the source and
is therefore not a field. -/
structure Cfg where
  weatherEntity : Bool
  taskLists : List String
  calendars : List String
  mailboxEntity : Bool
  weatherInterval : Int
  forecastInterval : Int
  tasksInterval : Int
  calendarInterval : Int
  mailboxInterval : Int
  haCheckInterval : Int
  internetCheckInterval : Int
  keepaliveInterval : Int

/-- The configured refresh interval of a domain (`self.<domain>_interval`;
the sun block uses the literal 300). -/
def intervalOf (cfg : Cfg) : Domain → Int
  | .weather => cfg.weatherInterval
  | .forecast => cfg.forecastInterval
  | .tasks => cfg.tasksInterval
  | .calendar => cfg.calendarInterval
  | .mailbox => cfg.mailboxInterval
  | .sun => 300

/-- The persistent cache entries `update_data` and the drain touch.
`mailboxMeta` summarises the mailbox bookkeeping keys written by
`_check_mailbox_opened_today` (reachable only from the mailbox fetch
branch); their precise content is irrelevant to the claims. -/
structure CacheView where
  weather : Option String
  forecast : List String
  tasks : List TaskItem
  calendarToday : List Event
  calendarUpcoming : List Event
  mailbox : Option String
  mailboxMeta : String
  sunData : Option String
  pendingActions : List PendingAction
deriving DecidableEq

/-- The mutable state of `Pi0Display` that `update_data` reads or writes. -/
structure St where
  haConnected : Bool
  internetConnected : Bool
  lastHaCheck : Int
  lastInternetCheck : Int
  lastKeepalive : Int
  lastWeather : Int
  lastForecast : Int
  lastTasks : Int
  lastCalendar : Int
  lastMailbox : Int
  lastSun : Int
  weatherData : Option String
  forecastData : List String
  taskItems : List TaskItem
  calendarToday : List Event
  calendarUpcoming : List Event
  mailboxData : Option String
  sunData : Option String
  pendingActions : List PendingAction
  cache : CacheView
deriving DecidableEq

/-- The per-domain refresh timer (`self.last_<domain>_update`). -/
def lastOf (d : Domain) (s : St) : Int :=
  match d with
  | .weather => s.lastWeather
  | .forecast => s.lastForecast
  | .tasks => s.lastTasks
  | .calendar => s.lastCalendar
  | .mailbox => s.lastMailbox
  | .sun => s.lastSun

/-- The environment of one `update_data` call: the current time and the
results the external world (HA API, sockets, local date) would return if
consulted during this tick. -/
structure Env where
  now : Int
  internetUp : Bool
  haUp : Bool
  weatherRes : Option String
  forecastRes : List String
  todoItems : String → List TaskItem
  calendarRes : String → List Event
  todayStr : String
  mailboxRes : Option String
  mailboxMeta : String
  sunRes : Option String
  applyOk : Oracle

/-- Observable events of one tick, in program order. -/
inductive Ev
  | keepalive
  | internetCheck (result : Bool)
  | haCheck (result : Bool)
  | drain
  | replay (a : PendingAction)
  | fetch (d : Domain)
deriving DecidableEq

/-- Weather commit: guarded by `if self.weather_entity:` and
`if new_data:` (a `None` result leaves data and cache untouched). -/
def weatherApply (cfg : Cfg) (s : St) (e : Env) : St :=
  match cfg.weatherEntity, e.weatherRes with
  | true, some w => { s with weatherData := some w, cache := { s.cache with weather := some w } }
  | _, _ => s

/-- Forecast commit: guarded by `if self.weather_entity:` and
`if new_forecast:` (an empty list is falsy). -/
def forecastApply (cfg : Cfg) (s : St) (e : Env) : St :=
  if cfg.weatherEntity && !e.forecastRes.isEmpty then
    { s with forecastData := e.forecastRes, cache := { s.cache with forecast := e.forecastRes } }
  else s

/-- The concatenation of `get_todo_items` over the configured task lists
(`new_items.extend(items)` in a loop). -/
def fetchedTasks (cfg : Cfg) (e : Env) : List TaskItem :=
  (cfg.taskLists.map e.todoItems).flatten

/-- Task commit, lines 2257–2263: overwrite `task_items` and the cache
unless the fetch result is empty while the current list is non-empty. -/
def tasksApply (cfg : Cfg) (s : St) (e : Env) : St :=
  let newItems := fetchedTasks cfg e
  if !newItems.isEmpty || s.taskItems.isEmpty then
    { s with taskItems := newItems, cache := { s.cache with tasks := newItems } }
  else s

/-- Calendar commit: combine the per-calendar results, sort, split and
truncate, then overwrite both buckets and their cache entries. -/
def calendarApply (cfg : Cfg) (s : St) (e : Env) : St :=
  let allEvents := (cfg.calendars.map e.calendarRes).flatten
  let buckets := calendarBuckets allEvents e.todayStr
  { s with
    calendarToday := buckets.1,
    calendarUpcoming := buckets.2,
    cache := { s.cache with calendarToday := buckets.1, calendarUpcoming := buckets.2 } }

/-- Mailbox commit: guarded by `if self.mailbox_entity:` and
`if new_data:`; on success it also runs `_check_mailbox_opened_today`,
whose cache writes are summarised by the `mailboxMeta` entry. -/
def mailboxApply (cfg : Cfg) (s : St) (e : Env) : St :=
  match cfg.mailboxEntity, e.mailboxRes with
  | true, some m =>
    { s with
      mailboxData := some m,
      cache := { s.cache with mailbox := some m, mailboxMeta := e.mailboxMeta } }
  | _, _ => s

/-- Sun commit: guarded by `if sun_state:`. -/
def sunApply (s : St) (e : Env) : St :=
  match e.sunRes with
  | some d => { s with sunData := some d, cache := { s.cache with sunData := some d } }
  | none => s

/-- One domain block of `update_data`: when the interval has elapsed the
fetch is attempted (emitting a fetch event) and the timer is advanced to
`now` regardless of the fetch outcome. -/
def weatherStep (cfg : Cfg) (s : St) (e : Env) : St × List Ev :=
  if e.now - s.lastWeather > cfg.weatherInterval then
    ({ weatherApply cfg s e with lastWeather := e.now }, [Ev.fetch .weather])
  else (s, [])

/-- Forecast block of `update_data`. -/
def forecastStep (cfg : Cfg) (s : St) (e : Env) : St × List Ev :=
  if e.now - s.lastForecast > cfg.forecastInterval then
    ({ forecastApply cfg s e with lastForecast := e.now }, [Ev.fetch .forecast])
  else (s, [])

/-- Tasks block of `update_data`. -/
def tasksStep (cfg : Cfg) (s : St) (e : Env) : St × List Ev :=
  if e.now - s.lastTasks > cfg.tasksInterval then
    ({ tasksApply cfg s e with lastTasks := e.now }, [Ev.fetch .tasks])
  else (s, [])

/-- Calendar block of `update_data`. -/
def calendarStep (cfg : Cfg) (s : St) (e : Env) : St × List Ev :=
  if e.now - s.lastCalendar > cfg.calendarInterval then
    ({ calendarApply cfg s e with lastCalendar := e.now }, [Ev.fetch .calendar])
  else (s, [])

/-- Mailbox block of `update_data`. -/
def mailboxStep (cfg : Cfg) (s : St) (e : Env) : St × List Ev :=
  if e.now - s.lastMailbox > cfg.mailboxInterval then
    ({ mailboxApply cfg s e with lastMailbox := e.now }, [Ev.fetch .mailbox])
  else (s, [])

/-- Sun block of `update_data` (hard-coded 300 second interval). -/
def sunStep (s : St) (e : Env) : St × List Ev :=
  if e.now - s.lastSun > 300 then
    ({ sunApply s e with lastSun := e.now }, [Ev.fetch .sun])
  else (s, [])

/-- The fetch section of `update_data` (weather, forecast, tasks,
calendar, mailbox, sun, in program order).  Reached only when
`self.ha_connected` is true. -/
def fetchPhase (cfg : Cfg) (s : St) (e : Env) : St × List Ev :=
  let w := weatherStep cfg s e
  let f := forecastStep cfg w.1 e
  let t := tasksStep cfg f.1 e
  let c := calendarStep cfg t.1 e
  let m := mailboxStep cfg c.1 e
  let u := sunStep m.1 e
  (u.1, w.2 ++ f.2 ++ t.2 ++ c.2 ++ m.2 ++ u.2)

/-- WiFi keepalive block of `update_data` (network side effect only). -/
def keepaliveStep (cfg : Cfg) (s : St) (e : Env) : St × List Ev :=
  if e.now - s.lastKeepalive > cfg.keepaliveInterval then
    ({ s with lastKeepalive := e.now }, [Ev.keepalive])
  else (s, [])

/-- Internet connectivity check block of `update_data`. -/
def internetStep (cfg : Cfg) (s : St) (e : Env) : St × List Ev :=
  if e.now - s.lastInternetCheck > cfg.internetCheckInterval then
    ({ s with internetConnected := e.internetUp, lastInternetCheck := e.now },
      [Ev.internetCheck e.internetUp])
  else (s, [])

/-- HA connectivity check block of `update_data`, lines 2212–2229.  On an
observed false-to-true transition it processes the pending actions (one
drain pass, persisting the resulting queue) and then zeroes all six
refresh timers. -/
def haStep (cfg : Cfg) (s : St) (e : Env) : St × List Ev :=
  if e.now - s.lastHaCheck > cfg.haCheckInterval then
    let wasConnected := s.haConnected
    let s1 := { s with haConnected := e.haUp, lastHaCheck := e.now }
    if !wasConnected && e.haUp then
      let dr := processPendingActions e.applyOk s1.pendingActions
      let s2 :=
        { s1 with
          pendingActions := dr.1,
          cache := { s1.cache with pendingActions := dr.2.getLast?.getD s1.cache.pendingActions },
          lastWeather := 0,
          lastTasks := 0,
          lastCalendar := 0,
          lastMailbox := 0,
          lastSun := 0,
          lastForecast := 0 }
      (s2, [Ev.haCheck e.haUp, Ev.drain] ++ (drainAttempts e.applyOk s1.pendingActions).map Ev.replay)
    else (s1, [Ev.haCheck e.haUp])
  else (s, [])

/-- The connectivity section of `update_data`: keepalive, internet check,
HA check (with the reconnect handling inside the HA check). -/
def checksPhase (cfg : Cfg) (s : St) (e : Env) : St × List Ev :=
  let k := keepaliveStep cfg s e
  let i := internetStep cfg k.1 e
  let h := haStep cfg i.1 e
  (h.1, k.2 ++ i.2 ++ h.2)

/-- One full `update_data` call: the connectivity section, then — only if
`self.ha_connected` is true afterwards — the fetch section
(`if not self.ha_connected: return`). -/
def tick (cfg : Cfg) (s : St) (e : Env) : St × List Ev :=
  let c := checksPhase cfg s e
  if c.1.haConnected then
    let f := fetchPhase cfg c.1 e
    (f.1, c.2 ++ f.2)
  else c

/-- The times at which a fetch attempt for domain `d` occurs over a run
of consecutive ticks. -/
def fetchTimes (cfg : Cfg) (d : Domain) : St → List Env → List Int
  | _, [] => []
  | s, e :: es =>
    let r := tick cfg s e
    (if Ev.fetch d ∈ r.2 then [e.now] else []) ++ fetchTimes cfg d r.1 es

/-- `sepFrom I base ts`: each time in `ts` exceeds its predecessor
(starting from `base`) by more than `I`. -/
def sepFrom (I : Int) : Int → List Int → Prop
  | _, [] => True
  | base, t :: ts => base + I < t ∧ sepFrom I t ts

/-! ## Persistent data cache (`DataCache`, lines 187–254) -/

/-- The backing cache file as `_load` sees it: absent, present but not
valid JSON (`json.load` raises, the exception is caught), or a valid JSON
object of key-value pairs.  Values are abstracted over a type `V` of
JSON-serialisable payloads; the modelling assumption is that `json.dump`
followed by `json.load` is the identity on them. -/
inductive FileSt (V : Type) where
  | missing
  | malformed
  | good (store : List (String × V))

/-- A `DataCache` instance: the in-memory dict `self.data` and the
backing file.  Association lists with first-occurrence-wins lookup model
Python dicts. -/
structure CacheState (V : Type) where
  data : List (String × V)
  file : FileSt V

/-- `_load` merged into initialisation: `self.data` starts as the default
dict and `self.data.update(loaded)` overrides it with the file content
when the file exists and parses; any failure leaves the defaults
(the exception is caught). -/
def loadData (defaults : List (String × V)) : FileSt V → List (String × V)
  | .good store => store ++ defaults
  | _ => defaults

/-- `DataCache.__init__` from a given file state: set the defaults, then
`_load`. -/
def cacheInit (defaults : List (String × V)) (f : FileSt V) : CacheState V :=
  { data := loadData defaults f, file := f }

/-- `get(key, default=None)`: `none` when absent. -/
def cacheGet (c : CacheState V) (k : String) : Option V :=
  c.data.lookup k

/-- `set(key, value)`: update the in-memory dict, then `save()`.  A
failing save (modelled by `writeOk = false`) is caught and logged; the
file keeps its previous content and, either way, `set` returns normally. -/
def cacheSet (c : CacheState V) (k : String) (v : V) (writeOk : Bool) : CacheState V :=
  let d := (k, v) :: c.data
  { data := d, file := if writeOk then .good d else c.file }

/-! ## Stability and ordering lemmas for the calendar sort -/

theorem charLt_irrefl (a : Char) : charLt a a = false := by
  simp [charLt]

theorem charLt_asymm {a b : Char} (h : charLt a b = true) : charLt b a = false := by
  simp [charLt] at h ⊢
  omega

theorem charLt_trans {a b c : Char} (h1 : charLt a b = true) (h2 : charLt b c = true) :
    charLt a c = true := by
  simp [charLt] at h1 h2 ⊢
  omega

theorem char_eq_of_not_lt {a b : Char} (h1 : charLt a b = false) (h2 : charLt b a = false) :
    a = b := by
  simp [charLt] at h1 h2
  have hv : a.val.toNat = b.val.toNat := by omega
  exact Char.ext (UInt32.ext hv)

theorem charsLt_irrefl : ∀ l : List Char, charsLt l l = false := by
  intro l
  induction l with
  | nil => rfl
  | cons a t ih => simp [charsLt, charLt_irrefl, ih]

theorem charsLt_asymm : ∀ {l m : List Char}, charsLt l m = true → charsLt m l = false := by
  intro l
  induction l with
  | nil =>
    intro m h
    cases m with
    | nil => rfl
    | cons b bs => rfl
  | cons a as ih =>
    intro m h
    cases m with
    | nil => simp [charsLt] at h
    | cons b bs =>
      by_cases hab : charLt a b = true
      · simp [charsLt, hab, charLt_asymm hab]
      · by_cases hba : charLt b a = true
        · simp [charsLt, hab, hba] at h
        · have heq : b = a := char_eq_of_not_lt (by simpa using hba) (by simpa using hab)
          subst heq
          simp [charsLt, hab] at h ⊢
          exact ih h

theorem charsLt_trans : ∀ {l m n : List Char},
    charsLt l m = true → charsLt m n = true → charsLt l n = true := by
  intro l
  induction l with
  | nil =>
    intro m n h1 h2
    cases m with
    | nil => exact h2
    | cons b bs =>
      cases n with
      | nil => simp [charsLt] at h2
      | cons c cs => rfl
  | cons a as ih =>
    intro m n h1 h2
    cases m with
    | nil => simp [charsLt] at h1
    | cons b bs =>
      cases n with
      | nil => simp [charsLt] at h2
      | cons c cs =>
        by_cases hab : charLt a b = true
        · by_cases hbc : charLt b c = true
          · simp [charsLt, charLt_trans hab hbc]
          · by_cases hcb : charLt c b = true
            · simp [charsLt, hbc, hcb] at h2
            · have heq : b = c := char_eq_of_not_lt (by simpa using hbc) (by simpa using hcb)
              rw [← heq]
              simp [charsLt, hab]
        · by_cases hba : charLt b a = true
          · simp [charsLt, hab, hba] at h1
          · have heq : a = b := char_eq_of_not_lt (by simpa using hab) (by simpa using hba)
            rw [← heq] at h2
            simp [charsLt, hab, hba] at h1
            by_cases hac : charLt a c = true
            · simp [charsLt, hac]
            · by_cases hca : charLt c a = true
              · simp [charsLt, hac, hca] at h2
              · simp [charsLt, hac, hca] at h2 ⊢
                exact ih h1 h2

theorem charsLt_eq_of_not_lt : ∀ {l m : List Char},
    charsLt l m = false → charsLt m l = false → l = m := by
  intro l
  induction l with
  | nil =>
    intro m h1 _
    cases m with
    | nil => rfl
    | cons b bs => simp [charsLt] at h1
  | cons a as ih =>
    intro m h1 h2
    cases m with
    | nil => simp [charsLt] at h2
    | cons b bs =>
      by_cases hab : charLt a b = true
      · simp [charsLt, hab] at h1
      · by_cases hba : charLt b a = true
        · simp [charsLt, hba] at h2
        · have heq : a = b := char_eq_of_not_lt (by simpa using hab) (by simpa using hba)
          subst heq
          simp [charsLt, hab] at h1 h2
          rw [ih h1 h2]

theorem strLt_irrefl (s : String) : strLt s s = false :=
  charsLt_irrefl s.data

theorem strLe_refl (s : String) : strLe s s = true := by
  simp [strLe, strLt_irrefl]

theorem strLe_trans {a b c : String} (h1 : strLe a b = true) (h2 : strLe b c = true) :
    strLe a c = true := by
  simp only [strLe, strLt, Bool.not_eq_true'] at h1 h2 ⊢
  by_cases hbc : charsLt b.data c.data = true
  · by_cases hca : charsLt c.data a.data = true
    · have hba := charsLt_trans hbc hca
      rw [hba] at h1
      cases h1
    · simpa using hca
  · have heq : b.data = c.data := charsLt_eq_of_not_lt (by simpa using hbc) h2
    rw [← heq]
    exact h1

theorem strLe_of_not_le {a b : String} (h : strLe a b = false) : strLe b a = true := by
  simp only [strLe, strLt, Bool.not_eq_false'] at h
  simp only [strLe, strLt, Bool.not_eq_true']
  exact charsLt_asymm h

theorem mem_insertBy {le : α → α → Bool} {x c : α} :
    ∀ {m : List α}, c ∈ insertBy le x m ↔ c = x ∨ c ∈ m := by
  intro m
  induction m with
  | nil => simp [insertBy]
  | cons b t ih =>
    by_cases hle : le x b
    · simp [insertBy, hle]
    · simp only [insertBy, hle, if_false, Bool.false_eq_true, List.mem_cons, ih]
      tauto

theorem insertBy_filter_key (x : Event) (s : String) :
    ∀ m : List Event,
      (insertBy eventLe x m).filter (fun e => e.start == s) =
        if x.start == s then x :: m.filter (fun e => e.start == s)
        else m.filter (fun e => e.start == s) := by
  intro m
  induction m with
  | nil => by_cases hx : x.start == s <;> simp [insertBy, hx]
  | cons b t ih =>
    by_cases hle : eventLe x b
    · by_cases hx : x.start == s <;> by_cases hb : b.start == s <;>
        simp [insertBy, hle, List.filter_cons, hx, hb]
    · by_cases hb : b.start == s
      · by_cases hx : x.start == s
        · exfalso
          apply hle
          have hxx : x.start = s := by simpa using hx
          have hbb : b.start = s := by simpa using hb
          simp [eventLe, hxx, hbb, strLe_refl]
        · simp [insertBy, hle, List.filter_cons, hx, hb, ih]
      · simp [insertBy, hle, List.filter_cons, hb, ih]

/-- Stability of the calendar sort: among events with any fixed start
string, the sorted list preserves the original fetch order. -/
theorem sortEvents_filter_key (evs : List Event) (s : String) :
    (sortEvents evs).filter (fun e => e.start == s) =
      evs.filter (fun e => e.start == s) := by
  induction evs with
  | nil => rfl
  | cons a t ih =>
    have hstep : sortEvents (a :: t) = insertBy eventLe a (sortEvents t) := rfl
    rw [hstep, insertBy_filter_key a s (sortEvents t), ih]
    by_cases hx : a.start == s <;> simp [List.filter_cons, hx]

theorem insertBy_pairwise {x : Event} :
    ∀ {m : List Event}, m.Pairwise (fun a b => eventLe a b = true) →
      (insertBy eventLe x m).Pairwise (fun a b => eventLe a b = true) := by
  intro m
  induction m with
  | nil => intro _; simp [insertBy]
  | cons b t ih =>
    intro h
    rcases List.pairwise_cons.mp h with ⟨hb, ht⟩
    by_cases hle : eventLe x b
    · simp only [insertBy, hle, if_true]
      refine List.pairwise_cons.mpr ⟨?_, h⟩
      intro c hc
      rcases List.mem_cons.mp hc with rfl | hct
      · exact hle
      · exact strLe_trans hle (hb c hct)
    · have hbx : eventLe b x = true := strLe_of_not_le (by simpa using hle)
      simp only [insertBy, hle, if_false]
      refine List.pairwise_cons.mpr ⟨?_, ih ht⟩
      intro c hc
      rcases mem_insertBy.mp hc with rfl | hct
      · exact hbx
      · exact hb c hct

/-- The calendar sort orders events ascending by start string. -/
theorem sortEvents_sorted (evs : List Event) :
    (sortEvents evs).Pairwise (fun a b => eventLe a b = true) := by
  induction evs with
  | nil => simp [sortEvents, sortBy]
  | cons a t ih =>
    have hstep : sortEvents (a :: t) = insertBy eventLe a (sortEvents t) := rfl
    rw [hstep]
    exact insertBy_pairwise ih

/-- An event dated today is not classified as upcoming. -/
theorem isToday_not_upcoming {todayStr : String} {e : Event} :
    isToday todayStr e = true → isUpcoming todayStr e = false := by
  intro h
  have hdate : eventDate e = todayStr := by simpa [isToday] using h
  simp [isUpcoming, hdate, strLt_irrefl]

/-- The classification loop keeps exactly the events dated today in the
first bucket and exactly the events dated strictly after today in the
second, in list order; events dated before today land in neither. -/
theorem splitEvents_eq (todayStr : String) :
    ∀ l : List Event,
      splitEvents todayStr l =
        (l.filter (isToday todayStr), l.filter (isUpcoming todayStr)) := by
  intro l
  induction l with
  | nil => rfl
  | cons e rest ih =>
    by_cases heq : isToday todayStr e
    · have hnup : isUpcoming todayStr e = false := isToday_not_upcoming heq
      simp [splitEvents, heq, hnup, List.filter_cons, ih]
    · by_cases hup : isUpcoming todayStr e
      · simp [splitEvents, heq, hup, List.filter_cons, ih]
      · simp [splitEvents, heq, hup, List.filter_cons, ih]

/-! ## Scheduler-field preservation lemmas for the fetch section -/

/-- The weather commit touches only the weather data and its cache entry. -/
@[simp] theorem weatherApply_pres (cfg : Cfg) (s : St) (e : Env) :
    (weatherApply cfg s e).lastWeather = s.lastWeather ∧
    (weatherApply cfg s e).lastForecast = s.lastForecast ∧
    (weatherApply cfg s e).lastTasks = s.lastTasks ∧
    (weatherApply cfg s e).lastCalendar = s.lastCalendar ∧
    (weatherApply cfg s e).lastMailbox = s.lastMailbox ∧
    (weatherApply cfg s e).lastSun = s.lastSun ∧
    (weatherApply cfg s e).haConnected = s.haConnected ∧
    (weatherApply cfg s e).pendingActions = s.pendingActions := by
  unfold weatherApply
  cases cfg.weatherEntity <;> cases e.weatherRes <;> simp

/-- The forecast commit touches only the forecast data and its cache entry. -/
@[simp] theorem forecastApply_pres (cfg : Cfg) (s : St) (e : Env) :
    (forecastApply cfg s e).lastWeather = s.lastWeather ∧
    (forecastApply cfg s e).lastForecast = s.lastForecast ∧
    (forecastApply cfg s e).lastTasks = s.lastTasks ∧
    (forecastApply cfg s e).lastCalendar = s.lastCalendar ∧
    (forecastApply cfg s e).lastMailbox = s.lastMailbox ∧
    (forecastApply cfg s e).lastSun = s.lastSun ∧
    (forecastApply cfg s e).haConnected = s.haConnected ∧
    (forecastApply cfg s e).pendingActions = s.pendingActions := by
  unfold forecastApply
  split <;> simp

/-- The task commit touches only the task list and its cache entry. -/
@[simp] theorem tasksApply_pres (cfg : Cfg) (s : St) (e : Env) :
    (tasksApply cfg s e).lastWeather = s.lastWeather ∧
    (tasksApply cfg s e).lastForecast = s.lastForecast ∧
    (tasksApply cfg s e).lastTasks = s.lastTasks ∧
    (tasksApply cfg s e).lastCalendar = s.lastCalendar ∧
    (tasksApply cfg s e).lastMailbox = s.lastMailbox ∧
    (tasksApply cfg s e).lastSun = s.lastSun ∧
    (tasksApply cfg s e).haConnected = s.haConnected ∧
    (tasksApply cfg s e).pendingActions = s.pendingActions := by
  simp only [tasksApply]
  split <;> simp

/-- The calendar commit touches only the two buckets and their cache
entries. -/
@[simp] theorem calendarApply_pres (cfg : Cfg) (s : St) (e : Env) :
    (calendarApply cfg s e).lastWeather = s.lastWeather ∧
    (calendarApply cfg s e).lastForecast = s.lastForecast ∧
    (calendarApply cfg s e).lastTasks = s.lastTasks ∧
    (calendarApply cfg s e).lastCalendar = s.lastCalendar ∧
    (calendarApply cfg s e).lastMailbox = s.lastMailbox ∧
    (calendarApply cfg s e).lastSun = s.lastSun ∧
    (calendarApply cfg s e).haConnected = s.haConnected ∧
    (calendarApply cfg s e).pendingActions = s.pendingActions := by
  unfold calendarApply
  simp

/-- The mailbox commit touches only the mailbox data and cache entries. -/
@[simp] theorem mailboxApply_pres (cfg : Cfg) (s : St) (e : Env) :
    (mailboxApply cfg s e).lastWeather = s.lastWeather ∧
    (mailboxApply cfg s e).lastForecast = s.lastForecast ∧
    (mailboxApply cfg s e).lastTasks = s.lastTasks ∧
    (mailboxApply cfg s e).lastCalendar = s.lastCalendar ∧
    (mailboxApply cfg s e).lastMailbox = s.lastMailbox ∧
    (mailboxApply cfg s e).lastSun = s.lastSun ∧
    (mailboxApply cfg s e).haConnected = s.haConnected ∧
    (mailboxApply cfg s e).pendingActions = s.pendingActions := by
  unfold mailboxApply
  cases cfg.mailboxEntity <;> cases e.mailboxRes <;> simp

/-- The sun commit touches only the sun data and its cache entry. -/
@[simp] theorem sunApply_pres (s : St) (e : Env) :
    (sunApply s e).lastWeather = s.lastWeather ∧
    (sunApply s e).lastForecast = s.lastForecast ∧
    (sunApply s e).lastTasks = s.lastTasks ∧
    (sunApply s e).lastCalendar = s.lastCalendar ∧
    (sunApply s e).lastMailbox = s.lastMailbox ∧
    (sunApply s e).lastSun = s.lastSun ∧
    (sunApply s e).haConnected = s.haConnected ∧
    (sunApply s e).pendingActions = s.pendingActions := by
  unfold sunApply
  cases e.sunRes <;> simp

/-- Weather block: the timer advances to `now` exactly when the interval
has elapsed, regardless of the fetch outcome. -/
@[simp] theorem weatherStep_timer (cfg : Cfg) (s : St) (e : Env) :
    (weatherStep cfg s e).1.lastWeather =
      if e.now - s.lastWeather > cfg.weatherInterval then e.now else s.lastWeather := by
  unfold weatherStep
  split <;> rename_i h <;> simp [h]

/-- Weather block: all other scheduler fields are preserved. -/
@[simp] theorem weatherStep_pres (cfg : Cfg) (s : St) (e : Env) :
    (weatherStep cfg s e).1.lastForecast = s.lastForecast ∧
    (weatherStep cfg s e).1.lastTasks = s.lastTasks ∧
    (weatherStep cfg s e).1.lastCalendar = s.lastCalendar ∧
    (weatherStep cfg s e).1.lastMailbox = s.lastMailbox ∧
    (weatherStep cfg s e).1.lastSun = s.lastSun ∧
    (weatherStep cfg s e).1.haConnected = s.haConnected ∧
    (weatherStep cfg s e).1.pendingActions = s.pendingActions := by
  unfold weatherStep
  split <;> simp

@[simp] theorem weatherStep_trace (cfg : Cfg) (s : St) (e : Env) :
    (weatherStep cfg s e).2 =
      if e.now - s.lastWeather > cfg.weatherInterval then [Ev.fetch .weather] else [] := by
  unfold weatherStep
  split <;> rename_i h <;> simp [h]

/-- Forecast block: timer behaviour. -/
@[simp] theorem forecastStep_timer (cfg : Cfg) (s : St) (e : Env) :
    (forecastStep cfg s e).1.lastForecast =
      if e.now - s.lastForecast > cfg.forecastInterval then e.now else s.lastForecast := by
  unfold forecastStep
  split <;> rename_i h <;> simp [h]

/-- Forecast block: all other scheduler fields are preserved. -/
@[simp] theorem forecastStep_pres (cfg : Cfg) (s : St) (e : Env) :
    (forecastStep cfg s e).1.lastWeather = s.lastWeather ∧
    (forecastStep cfg s e).1.lastTasks = s.lastTasks ∧
    (forecastStep cfg s e).1.lastCalendar = s.lastCalendar ∧
    (forecastStep cfg s e).1.lastMailbox = s.lastMailbox ∧
    (forecastStep cfg s e).1.lastSun = s.lastSun ∧
    (forecastStep cfg s e).1.haConnected = s.haConnected ∧
    (forecastStep cfg s e).1.pendingActions = s.pendingActions := by
  unfold forecastStep
  split <;> simp

@[simp] theorem forecastStep_trace (cfg : Cfg) (s : St) (e : Env) :
    (forecastStep cfg s e).2 =
      if e.now - s.lastForecast > cfg.forecastInterval then [Ev.fetch .forecast] else [] := by
  unfold forecastStep
  split <;> rename_i h <;> simp [h]

/-- Tasks block: timer behaviour. -/
@[simp] theorem tasksStep_timer (cfg : Cfg) (s : St) (e : Env) :
    (tasksStep cfg s e).1.lastTasks =
      if e.now - s.lastTasks > cfg.tasksInterval then e.now else s.lastTasks := by
  unfold tasksStep
  split <;> rename_i h <;> simp [h]

/-- Tasks block: all other scheduler fields are preserved. -/
@[simp] theorem tasksStep_pres (cfg : Cfg) (s : St) (e : Env) :
    (tasksStep cfg s e).1.lastWeather = s.lastWeather ∧
    (tasksStep cfg s e).1.lastForecast = s.lastForecast ∧
    (tasksStep cfg s e).1.lastCalendar = s.lastCalendar ∧
    (tasksStep cfg s e).1.lastMailbox = s.lastMailbox ∧
    (tasksStep cfg s e).1.lastSun = s.lastSun ∧
    (tasksStep cfg s e).1.haConnected = s.haConnected ∧
    (tasksStep cfg s e).1.pendingActions = s.pendingActions := by
  unfold tasksStep
  split <;> simp

@[simp] theorem tasksStep_trace (cfg : Cfg) (s : St) (e : Env) :
    (tasksStep cfg s e).2 =
      if e.now - s.lastTasks > cfg.tasksInterval then [Ev.fetch .tasks] else [] := by
  unfold tasksStep
  split <;> rename_i h <;> simp [h]

/-- Calendar block: timer behaviour. -/
@[simp] theorem calendarStep_timer (cfg : Cfg) (s : St) (e : Env) :
    (calendarStep cfg s e).1.lastCalendar =
      if e.now - s.lastCalendar > cfg.calendarInterval then e.now else s.lastCalendar := by
  unfold calendarStep
  split <;> rename_i h <;> simp [h]

/-- Calendar block: all other scheduler fields are preserved. -/
@[simp] theorem calendarStep_pres (cfg : Cfg) (s : St) (e : Env) :
    (calendarStep cfg s e).1.lastWeather = s.lastWeather ∧
    (calendarStep cfg s e).1.lastForecast = s.lastForecast ∧
    (calendarStep cfg s e).1.lastTasks = s.lastTasks ∧
    (calendarStep cfg s e).1.lastMailbox = s.lastMailbox ∧
    (calendarStep cfg s e).1.lastSun = s.lastSun ∧
    (calendarStep cfg s e).1.haConnected = s.haConnected ∧
    (calendarStep cfg s e).1.pendingActions = s.pendingActions := by
  unfold calendarStep
  split <;> simp

@[simp] theorem calendarStep_trace (cfg : Cfg) (s : St) (e : Env) :
    (calendarStep cfg s e).2 =
      if e.now - s.lastCalendar > cfg.calendarInterval then [Ev.fetch .calendar] else [] := by
  unfold calendarStep
  split <;> rename_i h <;> simp [h]

/-- Mailbox block: timer behaviour. -/
@[simp] theorem mailboxStep_timer (cfg : Cfg) (s : St) (e : Env) :
    (mailboxStep cfg s e).1.lastMailbox =
      if e.now - s.lastMailbox > cfg.mailboxInterval then e.now else s.lastMailbox := by
  unfold mailboxStep
  split <;> rename_i h <;> simp [h]

/-- Mailbox block: all other scheduler fields are preserved. -/
@[simp] theorem mailboxStep_pres (cfg : Cfg) (s : St) (e : Env) :
    (mailboxStep cfg s e).1.lastWeather = s.lastWeather ∧
    (mailboxStep cfg s e).1.lastForecast = s.lastForecast ∧
    (mailboxStep cfg s e).1.lastTasks = s.lastTasks ∧
    (mailboxStep cfg s e).1.lastCalendar = s.lastCalendar ∧
    (mailboxStep cfg s e).1.lastSun = s.lastSun ∧
    (mailboxStep cfg s e).1.haConnected = s.haConnected ∧
    (mailboxStep cfg s e).1.pendingActions = s.pendingActions := by
  unfold mailboxStep
  split <;> simp

@[simp] theorem mailboxStep_trace (cfg : Cfg) (s : St) (e : Env) :
    (mailboxStep cfg s e).2 =
      if e.now - s.lastMailbox > cfg.mailboxInterval then [Ev.fetch .mailbox] else [] := by
  unfold mailboxStep
  split <;> rename_i h <;> simp [h]

/-- Sun block: timer behaviour (hard-coded 300 second interval). -/
@[simp] theorem sunStep_timer (s : St) (e : Env) :
    (sunStep s e).1.lastSun =
      if e.now - s.lastSun > 300 then e.now else s.lastSun := by
  unfold sunStep
  split <;> rename_i h <;> simp [h]

/-- Sun block: all other scheduler fields are preserved. -/
@[simp] theorem sunStep_pres (s : St) (e : Env) :
    (sunStep s e).1.lastWeather = s.lastWeather ∧
    (sunStep s e).1.lastForecast = s.lastForecast ∧
    (sunStep s e).1.lastTasks = s.lastTasks ∧
    (sunStep s e).1.lastCalendar = s.lastCalendar ∧
    (sunStep s e).1.lastMailbox = s.lastMailbox ∧
    (sunStep s e).1.haConnected = s.haConnected ∧
    (sunStep s e).1.pendingActions = s.pendingActions := by
  unfold sunStep
  split <;> simp

@[simp] theorem sunStep_trace (s : St) (e : Env) :
    (sunStep s e).2 =
      if e.now - s.lastSun > 300 then [Ev.fetch .sun] else [] := by
  unfold sunStep
  split <;> rename_i h <;> simp [h]

/-- Membership in a one-element-or-empty conditional list. -/
theorem mem_ite_single {c : Prop} [Decidable c] {a b : Ev} :
    (a ∈ if c then [b] else ([] : List Ev)) ↔ c ∧ a = b := by
  split <;> rename_i h <;> simp [h]

/-! ## Connectivity-section lemmas -/

/-- The keepalive block touches only `last_keepalive`. -/
@[simp] theorem keepaliveStep_pres (cfg : Cfg) (s : St) (e : Env) :
    (keepaliveStep cfg s e).1.haConnected = s.haConnected ∧
    (keepaliveStep cfg s e).1.internetConnected = s.internetConnected ∧
    (keepaliveStep cfg s e).1.lastHaCheck = s.lastHaCheck ∧
    (keepaliveStep cfg s e).1.lastInternetCheck = s.lastInternetCheck ∧
    (keepaliveStep cfg s e).1.lastWeather = s.lastWeather ∧
    (keepaliveStep cfg s e).1.lastForecast = s.lastForecast ∧
    (keepaliveStep cfg s e).1.lastTasks = s.lastTasks ∧
    (keepaliveStep cfg s e).1.lastCalendar = s.lastCalendar ∧
    (keepaliveStep cfg s e).1.lastMailbox = s.lastMailbox ∧
    (keepaliveStep cfg s e).1.lastSun = s.lastSun ∧
    (keepaliveStep cfg s e).1.weatherData = s.weatherData ∧
    (keepaliveStep cfg s e).1.forecastData = s.forecastData ∧
    (keepaliveStep cfg s e).1.taskItems = s.taskItems ∧
    (keepaliveStep cfg s e).1.calendarToday = s.calendarToday ∧
    (keepaliveStep cfg s e).1.calendarUpcoming = s.calendarUpcoming ∧
    (keepaliveStep cfg s e).1.mailboxData = s.mailboxData ∧
    (keepaliveStep cfg s e).1.sunData = s.sunData ∧
    (keepaliveStep cfg s e).1.pendingActions = s.pendingActions ∧
    (keepaliveStep cfg s e).1.cache = s.cache := by
  unfold keepaliveStep
  split <;> simp

@[simp] theorem keepaliveStep_trace (cfg : Cfg) (s : St) (e : Env) :
    (keepaliveStep cfg s e).2 =
      if e.now - s.lastKeepalive > cfg.keepaliveInterval then [Ev.keepalive] else [] := by
  unfold keepaliveStep
  split <;> rename_i h <;> simp [h]

/-- The internet-check block touches only `internet_connected` and
`last_internet_check`. -/
@[simp] theorem internetStep_pres (cfg : Cfg) (s : St) (e : Env) :
    (internetStep cfg s e).1.haConnected = s.haConnected ∧
    (internetStep cfg s e).1.lastHaCheck = s.lastHaCheck ∧
    (internetStep cfg s e).1.lastKeepalive = s.lastKeepalive ∧
    (internetStep cfg s e).1.lastWeather = s.lastWeather ∧
    (internetStep cfg s e).1.lastForecast = s.lastForecast ∧
    (internetStep cfg s e).1.lastTasks = s.lastTasks ∧
    (internetStep cfg s e).1.lastCalendar = s.lastCalendar ∧
    (internetStep cfg s e).1.lastMailbox = s.lastMailbox ∧
    (internetStep cfg s e).1.lastSun = s.lastSun ∧
    (internetStep cfg s e).1.weatherData = s.weatherData ∧
    (internetStep cfg s e).1.forecastData = s.forecastData ∧
    (internetStep cfg s e).1.taskItems = s.taskItems ∧
    (internetStep cfg s e).1.calendarToday = s.calendarToday ∧
    (internetStep cfg s e).1.calendarUpcoming = s.calendarUpcoming ∧
    (internetStep cfg s e).1.mailboxData = s.mailboxData ∧
    (internetStep cfg s e).1.sunData = s.sunData ∧
    (internetStep cfg s e).1.pendingActions = s.pendingActions ∧
    (internetStep cfg s e).1.cache = s.cache := by
  unfold internetStep
  split <;> simp

@[simp] theorem internetStep_trace (cfg : Cfg) (s : St) (e : Env) :
    (internetStep cfg s e).2 =
      if e.now - s.lastInternetCheck > cfg.internetCheckInterval then
        [Ev.internetCheck e.internetUp]
      else [] := by
  unfold internetStep
  split <;> rename_i h <;> simp [h]

/-- HA check skipped: its own interval has not elapsed. -/
theorem haStep_skip (cfg : Cfg) (s : St) (e : Env)
    (h : ¬ e.now - s.lastHaCheck > cfg.haCheckInterval) :
    haStep cfg s e = (s, []) := by
  unfold haStep
  rw [if_neg h]

/-- HA check performed without an observed false-to-true transition:
only the connectivity flag and check timestamp change, and the trace is
the bare check event. -/
theorem haStep_no_reconnect (cfg : Cfg) (s : St) (e : Env)
    (h : e.now - s.lastHaCheck > cfg.haCheckInterval)
    (h2 : (!s.haConnected && e.haUp) = false) :
    haStep cfg s e =
      ({ s with haConnected := e.haUp, lastHaCheck := e.now }, [Ev.haCheck e.haUp]) := by
  unfold haStep
  rw [if_pos h]
  simp [h2]

/-- HA check performed and a false-to-true transition observed: one drain
pass runs and every refresh timer is zeroed; everything else (data
fields, the non-pending cache entries) is untouched. -/
theorem haStep_reconnect (cfg : Cfg) (s : St) (e : Env)
    (h : e.now - s.lastHaCheck > cfg.haCheckInterval)
    (hc : s.haConnected = false) (hu : e.haUp = true) :
    (haStep cfg s e).1.haConnected = true ∧
    (haStep cfg s e).1.lastHaCheck = e.now ∧
    (haStep cfg s e).1.lastWeather = 0 ∧
    (haStep cfg s e).1.lastForecast = 0 ∧
    (haStep cfg s e).1.lastTasks = 0 ∧
    (haStep cfg s e).1.lastCalendar = 0 ∧
    (haStep cfg s e).1.lastMailbox = 0 ∧
    (haStep cfg s e).1.lastSun = 0 ∧
    (haStep cfg s e).1.pendingActions = drainResult e.applyOk s.pendingActions ∧
    (haStep cfg s e).2 =
      [Ev.haCheck true, Ev.drain] ++ (drainAttempts e.applyOk s.pendingActions).map Ev.replay := by
  unfold haStep
  rw [if_pos h]
  simp [hc, hu, drainResult]

/-- Event classification: connectivity-check events. -/
def isCheckEv : Ev → Bool
  | .keepalive => true
  | .internetCheck _ => true
  | .haCheck _ => true
  | _ => false

/-- Event classification: queue-drain events (the drain itself and the
individual replays it performs). -/
def isDrainEv : Ev → Bool
  | .drain => true
  | .replay _ => true
  | _ => false

/-- Event classification: fetch decisions. -/
def isFetchEv : Ev → Bool
  | .fetch _ => true
  | _ => false

/-- The fetch section leaves the connectivity flag unchanged. -/
@[simp] theorem fetchPhase_haConnected (cfg : Cfg) (s : St) (e : Env) :
    (fetchPhase cfg s e).1.haConnected = s.haConnected := by
  unfold fetchPhase
  simp

/-- The fetch section leaves the pending-action queue unchanged. -/
@[simp] theorem fetchPhase_pending (cfg : Cfg) (s : St) (e : Env) :
    (fetchPhase cfg s e).1.pendingActions = s.pendingActions := by
  unfold fetchPhase
  simp

/-- Across the whole fetch section, each domain timer advances to `now`
exactly when the domain's interval had elapsed at the start of the
section. -/
theorem fetchPhase_lastOf (cfg : Cfg) (s : St) (e : Env) (d : Domain) :
    lastOf d (fetchPhase cfg s e).1 =
      if e.now - lastOf d s > intervalOf cfg d then e.now else lastOf d s := by
  cases d <;> unfold fetchPhase <;> simp [lastOf, intervalOf]

/-- A fetch attempt for a domain occurs in the fetch section exactly when
the domain's interval had elapsed at the start of the section. -/
theorem fetchPhase_fetch_mem (cfg : Cfg) (s : St) (e : Env) (d : Domain) :
    (Ev.fetch d ∈ (fetchPhase cfg s e).2) ↔ e.now - lastOf d s > intervalOf cfg d := by
  cases d <;> unfold fetchPhase <;>
    simp [lastOf, intervalOf, List.mem_append, mem_ite_single]

/-- Every event of the fetch section is a fetch decision. -/
theorem fetchPhase_trace_fetch (cfg : Cfg) (s : St) (e : Env) :
    ∀ ev ∈ (fetchPhase cfg s e).2, isFetchEv ev = true := by
  intro ev hev
  unfold fetchPhase at hev
  simp only [List.mem_append, mem_ite_single, weatherStep_trace, forecastStep_trace,
    tasksStep_trace, calendarStep_trace, mailboxStep_trace, sunStep_trace] at hev
  rcases hev with ((((⟨_, rfl⟩ | ⟨_, rfl⟩) | ⟨_, rfl⟩) | ⟨_, rfl⟩) | ⟨_, rfl⟩) | ⟨_, rfl⟩ <;> rfl

/-- The drain event never occurs in the fetch section. -/
theorem fetchPhase_no_drain (cfg : Cfg) (s : St) (e : Env) :
    Ev.drain ∉ (fetchPhase cfg s e).2 := by
  intro h
  have := fetchPhase_trace_fetch cfg s e Ev.drain h
  simp [isFetchEv] at this

/-- Whether a tick observes the hub-reachability false-to-true transition:
the HA check interval has elapsed (so `_check_ha_connection` runs), the
stored flag is false and the probe now succeeds. -/
def reconnectObserved (cfg : Cfg) (s : St) (e : Env) : Prop :=
  e.now - s.lastHaCheck > cfg.haCheckInterval ∧ s.haConnected = false ∧ e.haUp = true

instance (cfg : Cfg) (s : St) (e : Env) : Decidable (reconnectObserved cfg s e) := by
  unfold reconnectObserved
  infer_instance

/-- Connectivity section without an observed reconnect: refresh timers,
all data fields and the cache are untouched, the connectivity flag
follows the probe when it runs, and no drain/replay/fetch event occurs. -/
theorem checksPhase_no_reconnect (cfg : Cfg) (s : St) (e : Env)
    (hnt : ¬ reconnectObserved cfg s e) :
    (checksPhase cfg s e).1.lastWeather = s.lastWeather ∧
    (checksPhase cfg s e).1.lastForecast = s.lastForecast ∧
    (checksPhase cfg s e).1.lastTasks = s.lastTasks ∧
    (checksPhase cfg s e).1.lastCalendar = s.lastCalendar ∧
    (checksPhase cfg s e).1.lastMailbox = s.lastMailbox ∧
    (checksPhase cfg s e).1.lastSun = s.lastSun ∧
    (checksPhase cfg s e).1.pendingActions = s.pendingActions ∧
    (checksPhase cfg s e).1.cache = s.cache ∧
    (checksPhase cfg s e).1.weatherData = s.weatherData ∧
    (checksPhase cfg s e).1.forecastData = s.forecastData ∧
    (checksPhase cfg s e).1.taskItems = s.taskItems ∧
    (checksPhase cfg s e).1.calendarToday = s.calendarToday ∧
    (checksPhase cfg s e).1.calendarUpcoming = s.calendarUpcoming ∧
    (checksPhase cfg s e).1.mailboxData = s.mailboxData ∧
    (checksPhase cfg s e).1.sunData = s.sunData ∧
    (checksPhase cfg s e).1.haConnected =
      (if e.now - s.lastHaCheck > cfg.haCheckInterval then e.haUp else s.haConnected) ∧
    Ev.drain ∉ (checksPhase cfg s e).2 ∧
    (∀ d, Ev.fetch d ∉ (checksPhase cfg s e).2) ∧
    (∀ a, Ev.replay a ∉ (checksPhase cfg s e).2) := by
  have hi : (internetStep cfg (keepaliveStep cfg s e).1 e).1.lastHaCheck = s.lastHaCheck := by
    simp
  by_cases hchk : e.now - s.lastHaCheck > cfg.haCheckInterval
  · have h2 : (!s.haConnected && e.haUp) = false := by
      cases hcs : s.haConnected <;> cases hue : e.haUp <;>
        simp_all [reconnectObserved]
    have h2' : (!(internetStep cfg (keepaliveStep cfg s e).1 e).1.haConnected && e.haUp) = false := by
      simpa using h2
    have hres := haStep_no_reconnect cfg (internetStep cfg (keepaliveStep cfg s e).1 e).1 e
      (by rw [hi]; exact hchk) h2'
    unfold checksPhase
    dsimp only
    rw [hres]
    simp [hchk, List.mem_append, mem_ite_single]
  · have hres := haStep_skip cfg (internetStep cfg (keepaliveStep cfg s e).1 e).1 e
      (by rw [hi]; exact hchk)
    unfold checksPhase
    dsimp only
    rw [hres]
    simp [hchk, List.mem_append, mem_ite_single]

/-- Connectivity section with an observed reconnect: exactly one drain
pass runs (leaving the failed-replay subsequence queued), every refresh
timer is zeroed, the flag becomes true, and no fetch event occurs. -/
theorem checksPhase_reconnect (cfg : Cfg) (s : St) (e : Env)
    (hrt : reconnectObserved cfg s e) :
    (checksPhase cfg s e).1.haConnected = true ∧
    (checksPhase cfg s e).1.lastWeather = 0 ∧
    (checksPhase cfg s e).1.lastForecast = 0 ∧
    (checksPhase cfg s e).1.lastTasks = 0 ∧
    (checksPhase cfg s e).1.lastCalendar = 0 ∧
    (checksPhase cfg s e).1.lastMailbox = 0 ∧
    (checksPhase cfg s e).1.lastSun = 0 ∧
    (checksPhase cfg s e).1.pendingActions = drainResult e.applyOk s.pendingActions ∧
    (checksPhase cfg s e).2.count Ev.drain = 1 ∧
    (∀ d, Ev.fetch d ∉ (checksPhase cfg s e).2) := by
  obtain ⟨hchk, hc, hu⟩ := hrt
  have hi : (internetStep cfg (keepaliveStep cfg s e).1 e).1.lastHaCheck = s.lastHaCheck := by
    simp
  have hic : (internetStep cfg (keepaliveStep cfg s e).1 e).1.haConnected = false := by
    simp [hc]
  have hip : (internetStep cfg (keepaliveStep cfg s e).1 e).1.pendingActions = s.pendingActions := by
    simp
  have hres := haStep_reconnect cfg (internetStep cfg (keepaliveStep cfg s e).1 e).1 e
    (by rw [hi]; exact hchk) hic hu
  rw [hip] at hres
  obtain ⟨r1, r2, r3, r4, r5, r6, r7, r8, r9, r10⟩ := hres
  unfold checksPhase
  dsimp only
  refine ⟨by simp [r1], by simp [r3], by simp [r4], by simp [r5], by simp [r6],
    by simp [r7], by simp [r8], by simp [r9], ?_, ?_⟩
  · rw [r10]
    simp only [List.count_append]
    have hk : (keepaliveStep cfg s e).2.count Ev.drain = 0 := by
      rw [List.count_eq_zero]
      simp [mem_ite_single]
    have hin : (internetStep cfg (keepaliveStep cfg s e).1 e).2.count Ev.drain = 0 := by
      rw [List.count_eq_zero]
      simp [mem_ite_single]
    have hrep : ((drainAttempts e.applyOk s.pendingActions).map Ev.replay).count Ev.drain = 0 := by
      rw [List.count_eq_zero]
      simp
    rw [hk, hin, hrep]
    rfl
  · intro d
    rw [r10]
    simp [List.mem_append, mem_ite_single]

/-! ## Tick-level lemmas -/

/-- A tick that starts connected and whose probe (if it runs) succeeds:
the flag stays true, and each domain timer / fetch attempt follows its
interval exactly, measured against the pre-tick timer value. -/
theorem tick_up (cfg : Cfg) (s : St) (e : Env)
    (hs : s.haConnected = true) (hu : e.haUp = true) :
    (tick cfg s e).1.haConnected = true ∧
    (∀ d, lastOf d (tick cfg s e).1 =
      if e.now - lastOf d s > intervalOf cfg d then e.now else lastOf d s) ∧
    (∀ d, (Ev.fetch d ∈ (tick cfg s e).2) ↔ e.now - lastOf d s > intervalOf cfg d) := by
  have hnt : ¬ reconnectObserved cfg s e := by
    intro h
    simp only [reconnectObserved] at h
    rw [hs] at h
    exact absurd h.2.1 (by simp)
  obtain ⟨p1, p2, p3, p4, p5, p6, p7, p8, p9, p10, p11, p12, p13, p14, p15, p16, p17, p18, p19⟩ :=
    checksPhase_no_reconnect cfg s e hnt
  have hlast : ∀ d, lastOf d (checksPhase cfg s e).1 = lastOf d s := by
    intro d
    cases d <;> simp [lastOf, p1, p2, p3, p4, p5, p6]
  have hcc : (checksPhase cfg s e).1.haConnected = true := by
    rw [p16]
    split
    · exact hu
    · exact hs
  unfold tick
  dsimp only
  rw [if_pos hcc]
  refine ⟨by simp [hcc], ?_, ?_⟩
  · intro d
    rw [fetchPhase_lastOf, hlast d]
  · intro d
    rw [List.mem_append]
    simp [p18 d, fetchPhase_fetch_mem, hlast d]

/-- A tick without an observed reconnect performs no drain. -/
theorem tick_count_drain_no_reconnect (cfg : Cfg) (s : St) (e : Env)
    (hnt : ¬ reconnectObserved cfg s e) :
    (tick cfg s e).2.count Ev.drain = 0 := by
  obtain ⟨-, -, -, -, -, -, -, -, -, -, -, -, -, -, -, -, p17, -, -⟩ :=
    checksPhase_no_reconnect cfg s e hnt
  unfold tick
  dsimp only
  split
  · rw [List.count_append, List.count_eq_zero_of_not_mem p17,
      List.count_eq_zero_of_not_mem (fetchPhase_no_drain cfg _ e)]
  · exact List.count_eq_zero_of_not_mem p17

/-- A tick with an observed reconnect performs exactly one drain and ends
connected. -/
theorem tick_reconnect (cfg : Cfg) (s : St) (e : Env)
    (hrt : reconnectObserved cfg s e) :
    (tick cfg s e).2.count Ev.drain = 1 ∧
    ((∀ d, intervalOf cfg d < e.now) → ∀ d, Ev.fetch d ∈ (tick cfg s e).2) := by
  obtain ⟨r1, r2, r3, r4, r5, r6, r7, r8, r9, r10⟩ := checksPhase_reconnect cfg s e hrt
  have hzero : ∀ d, lastOf d (checksPhase cfg s e).1 = 0 := by
    intro d
    cases d <;> simp [lastOf, r2, r3, r4, r5, r6, r7]
  unfold tick
  dsimp only
  rw [if_pos r1]
  constructor
  · rw [List.count_append, r9, List.count_eq_zero_of_not_mem (fetchPhase_no_drain cfg _ e)]
  · intro hbig d
    rw [List.mem_append]
    right
    rw [fetchPhase_fetch_mem, hzero d]
    have := hbig d
    omega

/-- Over any run of ticks in which the display starts connected and every
HA probe succeeds (so no reconnect transition is ever observed), the
fetch attempts of each domain are separated by more than the domain's
interval — regardless of how the individual fetches succeed or fail. -/
theorem fetchTimes_sep (cfg : Cfg) (d : Domain) :
    ∀ (envs : List Env) (s : St), s.haConnected = true → (∀ e ∈ envs, e.haUp = true) →
      sepFrom (intervalOf cfg d) (lastOf d s) (fetchTimes cfg d s envs) := by
  intro envs
  induction envs with
  | nil => intro s _ _; trivial
  | cons e es ih =>
    intro s hs hall
    have hu : e.haUp = true := hall e (by simp)
    obtain ⟨t1, t2, t3⟩ := tick_up cfg s e hs hu
    show sepFrom _ _
      ((if Ev.fetch d ∈ (tick cfg s e).2 then [e.now] else []) ++
        fetchTimes cfg d (tick cfg s e).1 es)
    have hrest := ih (tick cfg s e).1 t1 (fun e' he' => hall e' (by simp [he']))
    rw [t2 d] at hrest
    by_cases hf : e.now - lastOf d s > intervalOf cfg d
    · rw [if_pos ((t3 d).mpr hf), if_pos hf] at *
      exact ⟨by omega, hrest⟩
    · rw [if_neg (fun hmem => hf ((t3 d).mp hmem)), if_neg hf] at *
      simpa using hrest

/-- The HA-check block's trace is a check event followed (only on a
reconnect) by drain/replay events. -/
theorem haStep_trace_decomp (cfg : Cfg) (s : St) (e : Env) :
    ∃ t1 t2, (haStep cfg s e).2 = t1 ++ t2 ∧
      (∀ ev ∈ t1, isCheckEv ev = true) ∧ (∀ ev ∈ t2, isDrainEv ev = true) := by
  unfold haStep
  dsimp only
  split
  · split
    · refine ⟨[Ev.haCheck e.haUp],
        Ev.drain :: (drainAttempts e.applyOk s.pendingActions).map Ev.replay,
        by simp, by simp [isCheckEv], ?_⟩
      intro ev hev
      rcases List.mem_cons.mp hev with rfl | hm
      · rfl
      · obtain ⟨a, -, rfl⟩ := List.mem_map.mp hm
        rfl
    · exact ⟨[Ev.haCheck e.haUp], [], by simp, by simp [isCheckEv], by simp⟩
  · exact ⟨[], [], by simp, by simp, by simp⟩

/-- The connectivity section's trace is check events followed by
drain/replay events. -/
theorem checksPhase_trace_decomp (cfg : Cfg) (s : St) (e : Env) :
    ∃ t1 t2, (checksPhase cfg s e).2 = t1 ++ t2 ∧
      (∀ ev ∈ t1, isCheckEv ev = true) ∧ (∀ ev ∈ t2, isDrainEv ev = true) := by
  obtain ⟨h1, h2, heq, m1, m2⟩ :=
    haStep_trace_decomp cfg (internetStep cfg (keepaliveStep cfg s e).1 e).1 e
  refine ⟨(keepaliveStep cfg s e).2 ++ (internetStep cfg (keepaliveStep cfg s e).1 e).2 ++ h1,
    h2, ?_, ?_, m2⟩
  · unfold checksPhase
    dsimp only
    rw [heq]
    simp [List.append_assoc]
  · intro ev hev
    simp only [List.mem_append] at hev
    rcases hev with (hk | hi) | hh
    · rw [keepaliveStep_trace] at hk
      rcases mem_ite_single.mp hk with ⟨-, rfl⟩
      rfl
    · rw [internetStep_trace] at hi
      rcases mem_ite_single.mp hi with ⟨-, rfl⟩
      rfl
    · exact m1 ev hh

/-! ## Concrete fixtures for witnesses and counterexamples -/

/-- A well-formed queued action (uid u1), as `_queue_pending_action` builds. -/
def act1 : PendingAction := { type := "complete_task", entityId := some "todo.house", taskUid := some "u1" }

/-- A well-formed queued action (uid u2). -/
def act2 : PendingAction := { type := "complete_task", entityId := some "todo.house", taskUid := some "u2" }

/-- A well-formed queued action (uid u3). -/
def act3 : PendingAction := { type := "complete_task", entityId := some "todo.house", taskUid := some "u3" }

/-- A malformed queued action: unknown type. -/
def actBadType : PendingAction := { type := "dismiss_alert", entityId := some "todo.house", taskUid := some "u9" }

/-- A malformed queued action: missing task uid. -/
def actNoUid : PendingAction := { type := "complete_task", entityId := some "todo.house", taskUid := none }

/-- An empty cache view. -/
def cache0 : CacheView :=
  { weather := none, forecast := [], tasks := [], calendarToday := [], calendarUpcoming := [],
    mailbox := none, mailboxMeta := "", sunData := none, pendingActions := [] }

/-- A configuration with the default intervals of `__init__` (weather 300,
forecast 1800, tasks/mailbox read from config — here 300/300 — calendar
300, checks and keepalive 30). -/
def cfg0 : Cfg :=
  { weatherEntity := false, taskLists := [], calendars := [], mailboxEntity := false,
    weatherInterval := 300, forecastInterval := 1800, tasksInterval := 300,
    calendarInterval := 300, mailboxInterval := 300, haCheckInterval := 30,
    internetCheckInterval := 30, keepaliveInterval := 30 }

/-- Fresh start state: connected, all timers at epoch zero. -/
def st0 : St :=
  { haConnected := true, internetConnected := true, lastHaCheck := 0, lastInternetCheck := 0,
    lastKeepalive := 0, lastWeather := 0, lastForecast := 0, lastTasks := 0, lastCalendar := 0,
    lastMailbox := 0, lastSun := 0, weatherData := none, forecastData := [], taskItems := [],
    calendarToday := [], calendarUpcoming := [], mailboxData := none, sunData := none,
    pendingActions := [], cache := cache0 }

/-- Disconnected variant of the start state. -/
def stOff : St := { st0 with haConnected := false }

/-- Disconnected state with one queued action. -/
def stQ : St := { st0 with haConnected := false, pendingActions := [act1] }

/-- A tick environment at time `t` with HA probe result `up`; all fetches
return empty/absent results and replays succeed. -/
def envAt (t : Int) (up : Bool) : Env :=
  { now := t, internetUp := true, haUp := up, weatherRes := none, forecastRes := [],
    todoItems := fun _ => [], calendarRes := fun _ => [], todayStr := "",
    mailboxRes := none, mailboxMeta := "", sunRes := none, applyOk := fun _ _ => true }

/-- Configuration with one task list, for the task-refresh scenario. -/
def cfg1 : Cfg := { cfg0 with taskLists := ["todo.house"] }

/-- State holding three cached tasks. -/
def st1 : St := { st0 with taskItems := ["t1", "t2", "t3"] }

/-- The two events of the calendar scenario: one today (2024-01-10), one
the day before. -/
def ev0110 : Event := { start := "2024-01-10T09:00Z", tag := 0 }

/-- The past event of the calendar scenario. -/
def ev0109 : Event := { start := "2024-01-09T08:00Z", tag := 1 }

/-- Eight events dated strictly after 2024-01-10, in ascending order. -/
def evs8 : List Event :=
  [{ start := "2024-01-11T09:00Z", tag := 1 }, { start := "2024-01-12T09:00Z", tag := 2 },
   { start := "2024-01-13T09:00Z", tag := 3 }, { start := "2024-01-14T09:00Z", tag := 4 },
   { start := "2024-01-15T09:00Z", tag := 5 }, { start := "2024-01-16T09:00Z", tag := 6 },
   { start := "2024-01-17T09:00Z", tag := 7 }, { start := "2024-01-18T09:00Z", tag := 8 }]

/-- The eighth (latest) of those events. -/
def ev0118 : Event := { start := "2024-01-18T09:00Z", tag := 8 }

/-! ## Claim theorems -/

/-- C1: For every queue of pending actions of the shape
`_queue_pending_action` produces (type `complete_task`, truthy entity and
uid) and every replay outcome function, one drain pass attempts each
queued action exactly once in the original enqueue order
(`drainAttempts f q = q`), removes exactly the actions whose replay
succeeded, and leaves the failed ones in place: the post-drain queue is
the subsequence of originally-queued actions whose replay failed, in
their original relative order (a failing action never blocks later
ones).  The 3-action / second-drain scenario is the witness theorem. -/
theorem C1_drain_pass (f : Oracle) (q : List PendingAction)
    (hq : ∀ a ∈ q, wellFormedAction a = true) :
    drainAttempts f q = q ∧
    drainResult f q =
      q.filter (fun a => !f (a.entityId.getD "") (a.taskUid.getD "")) ∧
    (drainResult f q).Sublist q := by
  have h1 : drainAttempts f q = q := by
    rw [drainAttempts, drainScan_fst]
    exact List.filter_eq_self.mpr hq
  have h2 : drainResult f q =
      q.filter (fun a => !f (a.entityId.getD "") (a.taskUid.getD "")) := by
    rw [drainResult, processPendingActions_eq]
    exact List.filter_congr (fun a ha => by simp [replaySuccess, hq a ha])
  exact ⟨h1, h2, h2 ▸ List.filter_sublist q⟩

/-- C1 witness: three queued actions, replay failing only for the second:
all three are attempted in order, the first and third are removed and the
second remains; a second drain in which the second succeeds empties the
queue. -/
theorem C1_drain_pass_witness :
    drainAttempts (fun _ uid => !(uid == "u2")) [act1, act2, act3] = [act1, act2, act3] ∧
    drainResult (fun _ uid => !(uid == "u2")) [act1, act2, act3] = [act2] ∧
    drainResult (fun _ _ => true) [act2] = [] := by
  refine ⟨(C1_drain_pass _ _ (by decide)).1, ?_, ?_⟩
  · rw [(C1_drain_pass (fun _ uid => !(uid == "u2")) [act1, act2, act3] (by decide)).2.1]
    decide
  · rw [(C1_drain_pass (fun _ _ => true) [act2] (by decide)).2.1]
    decide

/-- C7 counterexample: draining the queue `[act1, act2]` with an
always-succeeding replay function removes both actions but issues exactly
one persistence call — with the final (empty) queue.  The snapshot list
`[[act2], []]` that per-removal persistence would produce is not what the
code persists: after the first removal nothing is written, so a crash at
that point leaves both successfully-replayed actions in the persisted
queue. -/
theorem C7_cex :
    drainPersists (fun _ _ => true) [act1, act2] = [[]] ∧
    drainPersists (fun _ _ => true) [act1, act2] ≠ [[act2], []] := by
  constructor
  · decide
  · decide

/-- C7 amended: during a drain pass over a non-empty queue the pending
queue is persisted exactly once, after all removals, with the final
queue value (an empty queue is not persisted at all, as the code returns
early).  At a crash before that single persist, every
successfully-replayed action may still sit in the persisted queue. -/
theorem C7_single_persist (f : Oracle) (q : List PendingAction) (hne : q ≠ []) :
    drainPersists f q = [drainResult f q] := by
  rw [drainPersists, drainResult, processPendingActions_eq]
  have : q.isEmpty = false := by
    cases q with
    | nil => exact absurd rfl hne
    | cons a t => rfl
  simp [this]

/-- C7 amended witness at a concrete queue. -/
theorem C7_single_persist_witness :
    drainPersists (fun _ _ => true) [act3] = [drainResult (fun _ _ => true) [act3]] :=
  C7_single_persist (fun _ _ => true) [act3] (by decide)

/-- C10: in every drain pass the replay-attempted actions are exactly the
well-formed ones (type `complete_task` with truthy entity and uid), so an
action of any other type, or lacking either id, is never replayed; and
across any number of drain passes with arbitrary replay outcomes the
malformed actions of the queue are preserved exactly, in their original
relative positions. -/
theorem C10_malformed_preserved (f : Oracle) (fs : List Oracle) (q : List PendingAction) :
    drainAttempts f q = q.filter wellFormedAction ∧
    (fs.foldl (fun acc g => drainResult g acc) q).filter (fun a => !wellFormedAction a) =
      q.filter (fun a => !wellFormedAction a) := by
  have step : ∀ (g : Oracle) (r : List PendingAction),
      (drainResult g r).filter (fun a => !wellFormedAction a) =
        r.filter (fun a => !wellFormedAction a) := by
    intro g r
    rw [drainResult, processPendingActions_eq]
    dsimp only
    rw [List.filter_filter]
    apply List.filter_congr
    intro a ha
    by_cases hw : wellFormedAction a <;> simp [replaySuccess, hw]
  refine ⟨by rw [drainAttempts, drainScan_fst], ?_⟩
  induction fs generalizing q with
  | nil => rfl
  | cons g gs ih => rw [List.foldl_cons, ih, step]

/-- C5: on a task refresh the fetched list overwrites both the in-memory
task list and its cache entry, except when the fetch result is empty
while the current list is non-empty — then both are left untouched
(`if new_items or not self.task_items`). -/
theorem C5_tasks_empty_keep (cfg : Cfg) (s : St) (e : Env) :
    (fetchedTasks cfg e = [] → s.taskItems ≠ [] →
      (tasksApply cfg s e).taskItems = s.taskItems ∧ (tasksApply cfg s e).cache = s.cache) ∧
    (fetchedTasks cfg e ≠ [] →
      (tasksApply cfg s e).taskItems = fetchedTasks cfg e ∧
      (tasksApply cfg s e).cache.tasks = fetchedTasks cfg e) ∧
    (s.taskItems = [] →
      (tasksApply cfg s e).taskItems = fetchedTasks cfg e ∧
      (tasksApply cfg s e).cache.tasks = fetchedTasks cfg e) := by
  refine ⟨?_, ?_, ?_⟩
  · intro hnew hold
    have hc : (!(fetchedTasks cfg e).isEmpty || s.taskItems.isEmpty) = false := by
      cases hst : s.taskItems with
      | nil => exact absurd hst hold
      | cons x xs => simp [hnew, hst]
    simp [tasksApply, hc]
  · intro hne
    have hc : (!(fetchedTasks cfg e).isEmpty || s.taskItems.isEmpty) = true := by
      cases hfe : fetchedTasks cfg e with
      | nil => exact absurd hfe hne
      | cons x xs => simp [hfe]
    simp [tasksApply, hc]
  · intro h0
    have hc : (!(fetchedTasks cfg e).isEmpty || s.taskItems.isEmpty) = true := by
      simp [h0]
    simp [tasksApply, hc]

/-- C5 witness: a fetch returning the empty list while three tasks are
cached leaves the three tasks (and the whole cache) unchanged. -/
theorem C5_tasks_empty_keep_witness :
    (tasksApply cfg1 st1 (envAt 1000 true)).taskItems = st1.taskItems ∧
    (tasksApply cfg1 st1 (envAt 1000 true)).cache = st1.cache :=
  (C5_tasks_empty_keep cfg1 st1 (envAt 1000 true)).1 (by decide) (by decide)

/-- C6 counterexample: with eight fetched events all dated strictly after
today, the upcoming bucket keeps only the first seven; the eighth event
is fetched yet lands in neither bucket, so the buckets are not a
partition of the fetched list. -/
theorem C6_cex :
    (calendarBuckets evs8 "2024-01-10").1 = [] ∧
    (calendarBuckets evs8 "2024-01-10").2.length = 7 ∧
    ev0118 ∈ evs8 ∧
    ev0118 ∉ (calendarBuckets evs8 "2024-01-10").1 ∧
    ev0118 ∉ (calendarBuckets evs8 "2024-01-10").2 := by
  refine ⟨by decide, by decide, by decide, by decide, by decide⟩

/-- C6 amended: the calendar refresh stably sorts the fetched events
ascending by start string (ties keep fetch order), puts the events whose
date prefix equals the local today string into the today bucket and the
first seven events dated strictly after today into the upcoming bucket;
events dated before today are discarded.  The claim's concrete example
(events starting 2024-01-10T09:00Z and 2024-01-09T08:00Z with today
2024-01-10) yields exactly the 09:00 event today and an empty upcoming
bucket. -/
theorem C6_calendar_buckets (evs : List Event) (today : String) :
    (calendarBuckets evs today).1 = (sortEvents evs).filter (isToday today) ∧
    (calendarBuckets evs today).2 = ((sortEvents evs).filter (isUpcoming today)).take 7 ∧
    (sortEvents evs).Pairwise (fun a b => eventLe a b = true) ∧
    (∀ s, (sortEvents evs).filter (fun ev => ev.start == s) =
      evs.filter (fun ev => ev.start == s)) ∧
    calendarBuckets [ev0110, ev0109] "2024-01-10" = ([ev0110], []) := by
  refine ⟨?_, ?_, sortEvents_sorted evs, fun s => sortEvents_filter_key evs s, by decide⟩
  · rw [calendarBuckets]
    dsimp only
    rw [splitEvents_eq]
  · rw [calendarBuckets]
    dsimp only
    rw [splitEvents_eq]

/-- C9: `DataCache` round-trip and failure behaviour, for arbitrary
JSON-serialisable values: a `set` followed by a restart (re-reading the
file written by the successful save) yields the stored value; reloading
from a missing or malformed file falls back to the defaults (the
load error is caught, nothing is raised — the model is total); a failed
save is swallowed (`set` still returns, the file keeps its old content)
while the in-memory value remains visible to `get` for the rest of the
process lifetime. -/
theorem C9_cache_roundtrip (V : Type) (defaults : List (String × V)) (c : CacheState V)
    (k : String) (v : V) :
    cacheGet (cacheInit defaults (cacheSet c k v true).file) k = some v ∧
    (∀ writeOk, cacheGet (cacheSet c k v writeOk) k = some v) ∧
    (cacheSet c k v false).file = c.file ∧
    (cacheInit defaults FileSt.malformed).data = defaults ∧
    (cacheInit defaults FileSt.missing).data = defaults := by
  refine ⟨?_, ?_, rfl, rfl, rfl⟩
  · simp [cacheGet, cacheInit, cacheSet, loadData, List.lookup]
  · intro w
    simp [cacheGet, cacheSet, List.lookup]

/-- C4: whenever the tick ends with the hub flag false (the stored flag
was false, or this tick's probe failed), the fetch section is skipped:
no fetch attempt occurs for any domain, and every domain's in-memory
value and cache entry is exactly as before the tick. -/
theorem C4_offline_frame (cfg : Cfg) (s : St) (e : Env)
    (hoff : (tick cfg s e).1.haConnected = false) :
    (tick cfg s e).1.cache = s.cache ∧
    (tick cfg s e).1.weatherData = s.weatherData ∧
    (tick cfg s e).1.forecastData = s.forecastData ∧
    (tick cfg s e).1.taskItems = s.taskItems ∧
    (tick cfg s e).1.calendarToday = s.calendarToday ∧
    (tick cfg s e).1.calendarUpcoming = s.calendarUpcoming ∧
    (tick cfg s e).1.mailboxData = s.mailboxData ∧
    (tick cfg s e).1.sunData = s.sunData ∧
    (tick cfg s e).1.pendingActions = s.pendingActions ∧
    (∀ d, Ev.fetch d ∉ (tick cfg s e).2) := by
  have hc1 : (checksPhase cfg s e).1.haConnected = false := by
    cases hb : (checksPhase cfg s e).1.haConnected
    · rfl
    · have ht : (tick cfg s e).1.haConnected = true := by
        unfold tick
        dsimp only
        rw [if_pos hb]
        simp [hb]
      simp [ht] at hoff
  have hnt : ¬ reconnectObserved cfg s e := by
    intro hrt
    have h1 := (checksPhase_reconnect cfg s e hrt).1
    simp [hc1] at h1
  obtain ⟨p1, p2, p3, p4, p5, p6, p7, p8, p9, p10, p11, p12, p13, p14, p15, p16, p17, p18, p19⟩ :=
    checksPhase_no_reconnect cfg s e hnt
  have htk : tick cfg s e = checksPhase cfg s e := by
    unfold tick
    dsimp only
    rw [if_neg (by simp [hc1])]
  rw [htk]
  exact ⟨p8, p9, p10, p11, p12, p13, p14, p15, p7, p18⟩

/-- C4 witness: a tick at time 1000 on a disconnected state whose probe
fails leaves every cached and in-memory domain value unchanged and
performs no fetch. -/
theorem C4_offline_frame_witness :
    (tick cfg0 stOff (envAt 1000 false)).1.cache = stOff.cache ∧
    (tick cfg0 stOff (envAt 1000 false)).1.weatherData = stOff.weatherData ∧
    (tick cfg0 stOff (envAt 1000 false)).1.forecastData = stOff.forecastData ∧
    (tick cfg0 stOff (envAt 1000 false)).1.taskItems = stOff.taskItems ∧
    (tick cfg0 stOff (envAt 1000 false)).1.calendarToday = stOff.calendarToday ∧
    (tick cfg0 stOff (envAt 1000 false)).1.calendarUpcoming = stOff.calendarUpcoming ∧
    (tick cfg0 stOff (envAt 1000 false)).1.mailboxData = stOff.mailboxData ∧
    (tick cfg0 stOff (envAt 1000 false)).1.sunData = stOff.sunData ∧
    (tick cfg0 stOff (envAt 1000 false)).1.pendingActions = stOff.pendingActions ∧
    (∀ d, Ev.fetch d ∉ (tick cfg0 stOff (envAt 1000 false)).2) :=
  C4_offline_frame cfg0 stOff (envAt 1000 false) (by decide)

/-- C3: an observed false-to-true hub transition — and only that — makes
the tick zero all six refresh timers (before the scheduling decisions)
and run exactly one drain pass; consequently every domain whose interval
is below the current POSIX time fetches in that same tick.  Without the
transition the tick performs no drain and the connectivity section leaves
every refresh timer untouched. -/
theorem C3_reconnect_resets (cfg : Cfg) (s : St) (e : Env) :
    (reconnectObserved cfg s e →
      ((checksPhase cfg s e).1.lastWeather = 0 ∧
       (checksPhase cfg s e).1.lastForecast = 0 ∧
       (checksPhase cfg s e).1.lastTasks = 0 ∧
       (checksPhase cfg s e).1.lastCalendar = 0 ∧
       (checksPhase cfg s e).1.lastMailbox = 0 ∧
       (checksPhase cfg s e).1.lastSun = 0) ∧
      (tick cfg s e).2.count Ev.drain = 1 ∧
      ((∀ d, intervalOf cfg d < e.now) → ∀ d, Ev.fetch d ∈ (tick cfg s e).2)) ∧
    (¬ reconnectObserved cfg s e →
      (tick cfg s e).2.count Ev.drain = 0 ∧
      (checksPhase cfg s e).1.lastWeather = s.lastWeather ∧
      (checksPhase cfg s e).1.lastForecast = s.lastForecast ∧
      (checksPhase cfg s e).1.lastTasks = s.lastTasks ∧
      (checksPhase cfg s e).1.lastCalendar = s.lastCalendar ∧
      (checksPhase cfg s e).1.lastMailbox = s.lastMailbox ∧
      (checksPhase cfg s e).1.lastSun = s.lastSun) := by
  constructor
  · intro hrt
    obtain ⟨r1, r2, r3, r4, r5, r6, r7, r8, r9, r10⟩ := checksPhase_reconnect cfg s e hrt
    obtain ⟨c1, c2⟩ := tick_reconnect cfg s e hrt
    exact ⟨⟨r2, r3, r4, r5, r6, r7⟩, c1, c2⟩
  · intro hnt
    obtain ⟨p1, p2, p3, p4, p5, p6, -, -, -, -, -, -, -, -, -, -, -, -, -⟩ :=
      checksPhase_no_reconnect cfg s e hnt
    exact ⟨tick_count_drain_no_reconnect cfg s e hnt, p1, p2, p3, p4, p5, p6⟩

/-- C3 witness: a disconnected state whose probe succeeds at time 2000 —
all six timers are zeroed, exactly one drain runs, and all six domains
fetch in the same tick. -/
theorem C3_reconnect_resets_witness :
    ((checksPhase cfg0 stOff (envAt 2000 true)).1.lastWeather = 0 ∧
     (checksPhase cfg0 stOff (envAt 2000 true)).1.lastForecast = 0 ∧
     (checksPhase cfg0 stOff (envAt 2000 true)).1.lastTasks = 0 ∧
     (checksPhase cfg0 stOff (envAt 2000 true)).1.lastCalendar = 0 ∧
     (checksPhase cfg0 stOff (envAt 2000 true)).1.lastMailbox = 0 ∧
     (checksPhase cfg0 stOff (envAt 2000 true)).1.lastSun = 0) ∧
    (tick cfg0 stOff (envAt 2000 true)).2.count Ev.drain = 1 ∧
    (∀ d, Ev.fetch d ∈ (tick cfg0 stOff (envAt 2000 true)).2) := by
  obtain ⟨hz, hcount, hfetch⟩ :=
    (C3_reconnect_resets cfg0 stOff (envAt 2000 true)).1 (by decide)
  exact ⟨hz, hcount, hfetch (by intro d; cases d <;> decide)⟩

/-- C2 amended: while no hub false-to-true transition is observed (the
state starts connected and every probe succeeds), consecutive fetch
attempts of any domain are always separated by more than the domain's
configured interval, because every attempt — successful or failed —
advances the domain's last-attempt timestamp to the current time.  (The
claim's unconditional form is false: the reconnect transition of C3, an
online task completion and the forced-refresh key all reset timers to
zero, allowing a sooner attempt — see the counterexample.) -/
theorem C2_interval_separation (cfg : Cfg) (d : Domain) (s : St) (envs : List Env)
    (hs : s.haConnected = true) (hall : ∀ e ∈ envs, e.haUp = true) :
    sepFrom (intervalOf cfg d) (lastOf d s) (fetchTimes cfg d s envs) :=
  fetchTimes_sep cfg d envs s hs hall

/-- C2 witness: two ticks with the hub up throughout — the second task
fetch happens 400 seconds after the first, beyond the 300 second
interval. -/
theorem C2_interval_separation_witness :
    sepFrom (intervalOf cfg0 Domain.tasks) (lastOf Domain.tasks st0)
      (fetchTimes cfg0 Domain.tasks st0 [envAt 1000 true, envAt 1400 true]) :=
  C2_interval_separation cfg0 Domain.tasks st0 [envAt 1000 true, envAt 1400 true]
    (by decide) (by intro e he; fin_cases he <;> decide)

/-- C2 counterexample: tasks interval 300; a task fetch at time 1000,
hub down at 1040, hub back up at 1080 — the reconnect zeroes the timer
and the tick fetches tasks again at 1080, only 80 seconds after the
previous attempt.  Two attempts are scheduled less than the interval
apart, refuting the unconditional claim. -/
theorem C2_cex :
    fetchTimes cfg0 Domain.tasks st0 [envAt 1000 true, envAt 1040 false, envAt 1080 true] =
      [1000, 1080] ∧
    (1080 : Int) - 1000 < intervalOf cfg0 Domain.tasks := by
  constructor
  · decide
  · decide

/-- C8 amended: every tick's event trace splits into connectivity-check
events, then drain/replay events, then fetch decisions: the connectivity
check precedes everything else, but the drain — when it happens —
precedes the fetch decisions of the same tick, not the other way
around. -/
theorem C8_tick_order (cfg : Cfg) (s : St) (e : Env) :
    ∃ t1 t2 t3, (tick cfg s e).2 = t1 ++ t2 ++ t3 ∧
      (∀ ev ∈ t1, isCheckEv ev = true) ∧
      (∀ ev ∈ t2, isDrainEv ev = true) ∧
      (∀ ev ∈ t3, isFetchEv ev = true) := by
  obtain ⟨t1, t2, heq, m1, m2⟩ := checksPhase_trace_decomp cfg s e
  unfold tick
  dsimp only
  split
  · exact ⟨t1, t2, (fetchPhase cfg (checksPhase cfg s e).1 e).2,
      by rw [heq, List.append_assoc], m1, m2, fetchPhase_trace_fetch cfg _ e⟩
  · exact ⟨t1, t2, [], by rw [heq, List.append_nil], m1, m2, by simp⟩

/-- C8 counterexample: on a reconnect tick with one queued action and all
domains due, the queued action is replayed (position 4, right after the
drain event at position 3) before any fetch decision (positions 5-10):
the drain precedes the refresh decisions, contradicting the claimed
refresh-before-drain ordering. -/
theorem C8_cex :
    (tick cfg0 stQ (envAt 2000 true)).2 =
      [Ev.keepalive, Ev.internetCheck true, Ev.haCheck true, Ev.drain, Ev.replay act1,
       Ev.fetch .weather, Ev.fetch .forecast, Ev.fetch .tasks, Ev.fetch .calendar,
       Ev.fetch .mailbox, Ev.fetch .sun] ∧
    (tick cfg0 stQ (envAt 2000 true)).2.indexOf Ev.drain <
      (tick cfg0 stQ (envAt 2000 true)).2.indexOf (Ev.fetch .tasks) := by
  constructor
  · decide
  · decide
